import Mathlib

/-!
Verification of the BirdNET real-time PWA audio pipeline.

This file is a shallow embedding, in Lean 4, of the numeric core of the
repository birdnet-team/real-time-pwa:

- the frame windowing scheme of handlePredict in public/js/birdnet-worker.js
  (overlap quantisation, hop computation, sliding-window framing into a
  flat buffer);
- the circular audio buffer and window extraction of public/js/app.js
  (workletNode.port.onmessage and getCurrentWindow);
- the worker post-processing: sensitivity transform, log-mean-exp frame
  pooling (emitPooled), label loading, and the geo-prior replay of
  handleAreaScores;
- the temporal pooler computeTemporalPooledDetections and the pooled
  message handler of the main application.

JavaScript numbers are modelled as exact rationals (for audio samples and
frame bookkeeping) and as real numbers (for probabilities, where the code
uses Math.exp and Math.log).  JavaScript Math.round rounds half toward
positive infinity, which matches the Mathlib round function.  Stateful
code is modelled by explicit state passing; emitted postMessage calls are
returned as lists of message values.
-/

/- ==================== Frame windowing (birdnet-worker.js) ==================== -/

/-- Audio sample rate, samples per second (birdnet-worker.js SAMPLE_RATE). -/
def SAMPLE_RATE : ℕ := 48000

/-- Model input window, 3 seconds at 48 kHz (birdnet-worker.js WINDOW_SAMPLES). -/
def WINDOW_SAMPLES : ℕ := 144000

/-- Realized overlap in seconds:
`Math.min(2.5, Math.max(0.0, Math.round(overlapSecRaw * 2) / 2))`
from handlePredict. -/
def overlapSecOf (overlapSecRaw : ℚ) : ℚ :=
  min (5 / 2) (max 0 ((round (overlapSecRaw * 2) : ℚ) / 2))

/-- `overlapSamples = Math.round(overlapSec * SAMPLE_RATE)` from handlePredict. -/
def overlapSamplesOf (overlapSecRaw : ℚ) : ℤ :=
  round (overlapSecOf overlapSecRaw * (SAMPLE_RATE : ℚ))

/-- `hopSamples = Math.max(1, WINDOW_SAMPLES - overlapSamples)` from handlePredict. -/
def hopSamplesOf (overlapSecRaw : ℚ) : ℤ :=
  max 1 ((WINDOW_SAMPLES : ℤ) - overlapSamplesOf overlapSecRaw)

/-- The spec wording for clamping a value to an interval. -/
def specClamp (v lo hi : ℚ) : ℚ := max lo (min hi v)

/-- The overlap the spec promises:
clamp(round(overlapSecRaw x 2) / 2, 0, 2.5).  Stated from the spec text,
to be compared against overlapSecOf, which is translated from the code. -/
def specRealizedOverlap (overlapSecRaw : ℚ) : ℚ :=
  specClamp ((round (overlapSecRaw * 2) : ℚ) / 2) 0 (5 / 2)

/-- `numFrames = Math.max(1, Math.ceil(Math.max(0, total - windowSamples) / hopSamples) + 1)`
from handlePredict (the window size and hop are kept as parameters). -/
def numFramesJS (total w hop : ℕ) : ℕ :=
  max 1 ((⌈(max 0 ((total : ℚ) - w)) / hop⌉).toNat + 1)

/-- JavaScript `TypedArray.subarray(b, e)`: both bounds clamped to the
array length, empty when they cross. -/
def jsSubarray (l : List ℚ) (b e : ℕ) : List ℚ := (l.take e).drop b

/-- JavaScript `TypedArray.set(src, pos)`: overwrite `src.length` elements
of `buf` starting at `pos` (the source code only calls it in range). -/
def writeAt (buf : List ℚ) (pos : ℕ) (src : List ℚ) : List ℚ :=
  buf.take pos ++ src ++ buf.drop (pos + src.length)

/-- The framing loop of handlePredict: a zero buffer of
`numFrames * windowSamples` samples, with frame `f` receiving
`pcm.subarray(f * hop, Math.min(f * hop + w, total))` at offset `f * w`. -/
def framedBuf (pcm : List ℚ) (w hop n : ℕ) : List ℚ :=
  (List.range n).foldl
    (fun buf f => writeAt buf (f * w) (jsSubarray pcm (f * hop) (min (f * hop + w) pcm.length)))
    (List.replicate (n * w) 0)

/-- The contents of a single frame: the in-range source samples followed by
zero padding.  Helper used to describe framedBuf. -/
def frameOne (pcm : List ℚ) (w hop : ℕ) (f : ℕ) : List ℚ :=
  let src := jsSubarray pcm (f * hop) (min (f * hop + w) pcm.length)
  src ++ List.replicate (w - src.length) 0

/- ==================== Ring buffer (app.js) ==================== -/

/-- Hard clip to [-1, 1]: `Math.max(-1, Math.min(1, x))` from getCurrentWindow. -/
def clamp1 (x : ℚ) : ℚ := max (-1) (min 1 x)

/-- The circular capture buffer of app.js: `circularBuffer` plus
`circularWriteIndex`. -/
structure RingBuf where
  buf : List ℚ
  widx : ℕ

/-- One sample written by the worklet message handler:
`circularBuffer[circularWriteIndex] = input[i];
circularWriteIndex = (circularWriteIndex + 1) % circularBuffer.length`. -/
def ringWrite (r : RingBuf) (x : ℚ) : RingBuf :=
  { buf := r.buf.set r.widx x, widx := (r.widx + 1) % r.buf.length }

/-- The loop of workletNode.port.onmessage: write a block of samples in order. -/
def ringWriteAll (r : RingBuf) (xs : List ℚ) : RingBuf := xs.foldl ringWrite r

/-- getCurrentWindow from app.js: read `capacity` samples starting at the
write cursor, oldest first, clamping each to [-1, 1].  It builds a fresh
array and never writes to the ring. -/
def snapshot (r : RingBuf) : List ℚ :=
  (List.range r.buf.length).map
    (fun i => clamp1 (r.buf.getD ((r.widx + i) % r.buf.length) 0))

/-- `circularBuffer = new Float32Array(n); circularWriteIndex = 0`
(app.js setupAudioGraphFromStream; the source uses n = WINDOW_SAMPLES). -/
def mkRing (n : ℕ) : RingBuf := { buf := List.replicate n 0, widx := 0 }

/- ==================== Worker post-processing (birdnet-worker.js) ==================== -/

/-- The empty string (used to model falsy string checks from JavaScript). -/
def emptyStr : String := ""

/-- The underscore separator of the label line format. -/
def nameSep : String := "_"

/-- JavaScript `a || b` on strings: the empty string is falsy. -/
def jsOrStr (a b : String) : String := if a = emptyStr then b else a

/-- One entry of the worker `birds` table (loadLabels): geoscore defaults
to 1 and is the only field mutated after load. -/
structure Bird where
  geoscore : ℝ
  scientificName : String
  commonName : String
  commonNameI18n : String

/-- JavaScript reads of `birds[i]` out of range never happen in the
modelled flows; this value is the `getD` fallback. Its geoscore is the
neutral 1 so the fallback agrees with the load-time default. -/
def defaultBird : Bird :=
  { geoscore := 1, scientificName := emptyStr,
    commonName := emptyStr, commonNameI18n := emptyStr }

/-- A prediction entry as emitted in `segments` and `pooled` messages. -/
structure SpeciesEntry where
  index : ℕ
  scientificName : String
  commonName : String
  commonNameI18n : String
  confidence : ℝ
  geoscore : ℝ

/-- Fallback entry for out-of-range reads in statements (confidence 0). -/
def defaultEntry : SpeciesEntry :=
  { index := 0, scientificName := emptyStr,
    commonName := emptyStr, commonNameI18n := emptyStr, confidence := 0, geoscore := 0 }

/-- Pooling factor ALPHA = 5.0 of emitPooled. -/
def ALPHA : ℝ := 5

/-- The log-mean-exp frame pooler of emitPooled:
`sumsExp[i] += Math.exp(ALPHA * row[i])` over the frames, then
`Math.log(s / numFrames) / ALPHA` per class.  The class count is the
length of the first row (`predictionList[0]?.length || 0`). -/
noncomputable def poolMeans (plist : List (List ℝ)) : List ℝ :=
  (List.range (plist.headD []).length).map
    (fun i =>
      Real.log (((plist.map (fun row => Real.exp (ALPHA * row.getD i 0))).sum)
          / (plist.length : ℝ)) / ALPHA)

/-- The clipping epsilon 1e-7 of applySensitivity. -/
noncomputable def sensEps : ℝ := 1 / 10000000

/-- applySensitivity from birdnet-worker.js: per probability,
clip to [1e-7, 1 - 1e-7], convert to a logit, add the bias
`(sensitivity - 1.0) * 5.0`, and convert back through the sigmoid. -/
noncomputable def applySensitivity (list : List (List ℝ)) (sensitivity : ℝ) :
    List (List ℝ) :=
  list.map (fun row => row.map (fun p =>
    1 / (1 + Real.exp (-(Real.log ((max sensEps (min (1 - sensEps) p))
        / (1 - max sensEps (min (1 - sensEps) p))) + (sensitivity - 1) * 5)))))

/-- Step 3 of handlePredict: `if (sensitivity !== 1.0) { ... }`; the
transform is skipped entirely when the parsed sensitivity is exactly 1. -/
noncomputable def sensitivityStep (preds : List (List ℝ)) (s : ℝ) : List (List ℝ) :=
  if s = 1 then preds else applySensitivity preds s

/-- The sensitivity field of a predict request as seen by
`parseFloat(data.sensitivity || 1.0)`: a number, or one of the falsy
non-number values the main thread could send (absent field, null, empty
string). -/
inductive SensVal where
  | undef
  | nullv
  | emptyText
  | num (x : ℝ)

/-- `parseFloat(data.sensitivity || 1.0)`: every falsy field value
(missing, null, empty string, the number 0) falls back to 1.0; a nonzero
number parses to itself. -/
noncomputable def parseSens : SensVal → ℝ
  | SensVal.undef => 1
  | SensVal.nullv => 1
  | SensVal.emptyText => 1
  | SensVal.num x => if x = 0 then 1 else x

/-- JavaScript falsiness of the modelled sensitivity field values. -/
def jsFalsySens : SensVal → Prop
  | SensVal.undef => True
  | SensVal.nullv => True
  | SensVal.emptyText => True
  | SensVal.num x => x = 0

/-- The pooled message entries built by emitPooled (and by the replay in
handleAreaScores): entry i carries the i-th pooled mean as confidence
plus the names and the current geoscore of birds[i]. -/
def mkPooled (birds : List Bird) (means : List ℝ) : List SpeciesEntry :=
  means.enum.map (fun p =>
    { index := p.1,
      scientificName := (birds.getD p.1 defaultBird).scientificName,
      commonName := (birds.getD p.1 defaultBird).commonName,
      commonNameI18n := (birds.getD p.1 defaultBird).commonNameI18n,
      confidence := p.2,
      geoscore := (birds.getD p.1 defaultBird).geoscore })

/-- One element of a `segments` message (emitSegments). -/
structure Segment where
  startSec : ℚ
  endSec : ℚ
  preds : List SpeciesEntry

/-- emitSegments from birdnet-worker.js: per frame, the start time is
`f * hopSamples / SAMPLE_RATE`, the end time adds `windowSize / SAMPLE_RATE`,
and each class confidence is paired with the bird names and geoscore. -/
def mkSegments (plist : List (List ℝ)) (hop w : ℕ) (birds : List Bird) :
    List Segment :=
  plist.enum.map (fun fr =>
    { startSec := ((fr.1 * hop : ℕ) : ℚ) / (SAMPLE_RATE : ℚ),
      endSec := ((fr.1 * hop : ℕ) : ℚ) / (SAMPLE_RATE : ℚ) + (w : ℚ) / (SAMPLE_RATE : ℚ),
      preds := fr.2.enum.map (fun ci =>
        { index := ci.1,
          scientificName := (birds.getD ci.1 defaultBird).scientificName,
          commonName := (birds.getD ci.1 defaultBird).commonName,
          commonNameI18n := (birds.getD ci.1 defaultBird).commonNameI18n,
          confidence := ci.2,
          geoscore := (birds.getD ci.1 defaultBird).geoscore }) })

/-- Messages posted by the worker in the modelled flows. -/
inductive WorkerMsg where
  | segments (segs : List Segment)
  | pooled (entries : List SpeciesEntry)
  | areaScoresDone

/-- The worker global state (section 2 of birdnet-worker.js): the two
optional model handles (opaque scoring functions), the species table and
the inference cache.  The acoustic model maps a framed buffer and its
frame count to a per-frame, per-class probability matrix; the area model
maps latitude, longitude and week to a per-class geoscore vector. -/
structure WorkerState where
  birdModel : Option (List ℚ → ℕ → List (List ℝ))
  areaModel : Option (ℝ → ℝ → ℤ → List ℝ)
  birds : List Bird
  lastPredictionList : Option (List (List ℝ))
  lastMeans : Option (List ℝ)
  lastHopSamples : Option ℕ
  lastNumFrames : ℕ
  lastWindowSize : ℕ

/-- handlePredict from birdnet-worker.js: frame the audio, run the model,
apply the sensitivity transform when the parsed sensitivity is not 1,
overwrite the inference cache, then emit segments and the pooled view.
Returns the new state and the posted messages; `if (!birdModel) return`
is the none branch. -/
noncomputable def handlePredict (st : WorkerState) (pcm : List ℚ)
    (overlapSecRaw : ℚ) (sv : SensVal) : WorkerState × List WorkerMsg :=
  match st.birdModel with
  | none => (st, [])
  | some model =>
    let hop := (hopSamplesOf overlapSecRaw).toNat
    let n := numFramesJS pcm.length WINDOW_SAMPLES hop
    let preds := sensitivityStep
      (model (framedBuf pcm WINDOW_SAMPLES hop n) n) (parseSens sv)
    ({ st with
        lastPredictionList := some preds,
        lastMeans := some (poolMeans preds),
        lastHopSamples := some hop,
        lastNumFrames := n,
        lastWindowSize := WINDOW_SAMPLES },
      [WorkerMsg.segments (mkSegments preds hop WINDOW_SAMPLES st.birds),
        WorkerMsg.pooled (mkPooled st.birds (poolMeans preds))])

/-- The geoscore update loop of handleAreaScores:
`birds[i].geoscore = areaScores[i]`.  (In the source an areaScores vector
shorter than the table would store undefined; the modelled flows always
use a full-length vector, so the fallback keeps the old score.) -/
def updateGeoscores (birds : List Bird) (scores : List ℝ) : List Bird :=
  birds.mapIdx (fun i b => { b with geoscore := scores.getD i b.geoscore })

/-- handleAreaScores from birdnet-worker.js: bail out when the geo model
failed to load, otherwise query it, overwrite every geoscore, post the
area-scores acknowledgement, and replay the cached segments and pooled
views with the new geoscores without re-invoking the acoustic model.
The week parameter stands for the value the worker derives from the
current date. -/
noncomputable def handleAreaScores (st : WorkerState) (lat lon : ℝ) (week : ℤ) :
    WorkerState × List WorkerMsg :=
  match st.areaModel with
  | none => (st, [])
  | some geoModel =>
    let birds2 := updateGeoscores st.birds (geoModel lat lon week)
    ({ st with birds := birds2 },
      [WorkerMsg.areaScoresDone]
        ++ (match st.lastPredictionList, st.lastHopSamples with
            | some plist, some hop =>
                [WorkerMsg.segments (mkSegments plist hop st.lastWindowSize birds2)]
            | _, _ => [])
        ++ (match st.lastMeans with
            | some means => [WorkerMsg.pooled (mkPooled birds2 means)]
            | none => []))

/-- Parsing of one label line pair in loadLabels:
`const [sciBase, comBase] = base.split(nameSep)` with the
`sciBase || base`, `comBase || base`, `comLoc || comBase || base`
fallbacks. -/
def parseNames (line i18nLine : String) : String × String × String :=
  (jsOrStr ((line.splitOn nameSep).getD 0 emptyStr) line,
    jsOrStr ((line.splitOn nameSep).getD 1 emptyStr) line,
    jsOrStr ((i18nLine.splitOn nameSep).getD 1 emptyStr)
      (jsOrStr ((line.splitOn nameSep).getD 1 emptyStr) line))

/-- The `newBirds` construction of loadLabels: every entry starts with
the neutral geoscore 1. -/
def loadLabelsBirds (base i18n : List String) : List Bird :=
  base.mapIdx (fun i line =>
    { geoscore := 1,
      scientificName := (parseNames line (jsOrStr (i18n.getD i emptyStr) line)).1,
      commonName := (parseNames line (jsOrStr (i18n.getD i emptyStr) line)).2.1,
      commonNameI18n := (parseNames line (jsOrStr (i18n.getD i emptyStr) line)).2.2 })

/-- loadLabels from birdnet-worker.js applied to a worker state: build the
new table, and when the class count is unchanged carry the previous
geoscores over by index. -/
def applyLoadLabels (st : WorkerState) (base i18n : List String) : WorkerState :=
  let nb := loadLabelsBirds base i18n
  let nb2 :=
    if st.birds.length = nb.length
    then nb.mapIdx (fun i b => { b with geoscore := (st.birds.getD i defaultBird).geoscore })
    else nb
  { st with birds := nb2 }

/-- The worker requests that mutate state (onmessage switch). -/
inductive WorkerReq where
  | predict (pcm : List ℚ) (overlapSecRaw : ℚ) (sv : SensVal)
  | areaScores (lat lon : ℝ) (week : ℤ)
  | loadLabels (base i18n : List String)

/-- One step of the worker message loop (state part). -/
noncomputable def workerStep (st : WorkerState) : WorkerReq → WorkerState
  | WorkerReq.predict pcm ov sv => (handlePredict st pcm ov sv).1
  | WorkerReq.areaScores lat lon wk => (handleAreaScores st lat lon wk).1
  | WorkerReq.loadLabels base i18n => applyLoadLabels st base i18n

/-- The worker state right after init: model handles as loaded (the area
model is none when loading failed), labels loaded once into an initially
empty table, caches empty. -/
def initWorker (bm : Option (List ℚ → ℕ → List (List ℝ)))
    (am : Option (ℝ → ℝ → ℤ → List ℝ)) (base i18n : List String) : WorkerState :=
  applyLoadLabels
    { birdModel := bm, areaModel := am, birds := [],
      lastPredictionList := none, lastMeans := none, lastHopSamples := none,
      lastNumFrames := 0, lastWindowSize := WINDOW_SAMPLES } base i18n

/-- Run a sequence of worker requests. -/
noncomputable def runWorker (st : WorkerState) (reqs : List WorkerReq) : WorkerState :=
  reqs.foldl workerStep st

/-- Two emitted entries that agree on everything except the geoscore. -/
def sameExceptGeo (a b : SpeciesEntry) : Prop :=
  a.index = b.index ∧ a.scientificName = b.scientificName ∧
  a.commonName = b.commonName ∧ a.commonNameI18n = b.commonNameI18n ∧
  a.confidence = b.confidence

/-- Every species carries the neutral geoscore 1. -/
def allGeoscoresOne (birds : List Bird) : Prop := ∀ b ∈ birds, b.geoscore = 1

/- ==================== Temporal pooler and core handlers (app.js) ==================== -/

/-- The clipping epsilon 1e-8 of computeTemporalPooledDetections. -/
noncomputable def tpEps : ℝ := 1 / 100000000

/-- `Math.min(1 - eps, Math.max(eps, c))` from the temporal pooler. -/
noncomputable def clipConf (c : ℝ) : ℝ := min (1 - tpEps) (max tpEps c)

/-- `Math.log(clipped / (1 - clipped))` from the temporal pooler. -/
noncomputable def confLogit (c : ℝ) : ℝ := Real.log (clipConf c / (1 - clipConf c))

/-- `Math.max(...values)` over a nonempty argument list (the source never
spreads an empty list here: every group holds at least one sample). -/
noncomputable def listMax : List ℝ → ℝ
  | [] => 0
  | x :: xs => xs.foldl max x

/-- The per-class log-mean-exp over logits of computeTemporalPooledDetections:
`lme = maxLogit + Math.log(sumExp / n)` with `sumExp = sum of exp(l - maxLogit)`,
then back through the sigmoid. -/
noncomputable def lmePool (samples : List ℝ) : ℝ :=
  1 / (1 + Real.exp (-(listMax (samples.map confLogit)
      + Real.log (((samples.map confLogit).map
          (fun l => Real.exp (l - listMax (samples.map confLogit)))).sum
        / ((samples.map confLogit).length : ℝ)))))

/-- One entry of the `byIndex` insertion-ordered map of
computeTemporalPooledDetections: a species index, the gathered confidence
samples, and the first detection seen for that index (`ref`). -/
structure PoolGroup where
  idx : ℕ
  samples : List ℝ
  ref : SpeciesEntry

/-- Processing one detection in the grouping loop: append the confidence
to an existing group of the same index, or open a new group at the end
(JavaScript Map iteration follows insertion order). -/
def upsertDet (acc : List PoolGroup) (d : SpeciesEntry) : List PoolGroup :=
  if acc.any (fun e => e.idx == d.index)
  then acc.map (fun e =>
    if e.idx = d.index then { e with samples := e.samples ++ [d.confidence] } else e)
  else acc ++ [{ idx := d.index, samples := [d.confidence], ref := d }]

/-- The full grouping pass over all retained sets in order. -/
def groupByIndex (dets : List SpeciesEntry) : List PoolGroup :=
  dets.foldl upsertDet []

/-- The descending-confidence order used by
`pooled.sort((a, b) => b.confidence - a.confidence)`. -/
def confGE (a b : SpeciesEntry) : Prop := b.confidence ≤ a.confidence

noncomputable instance : DecidableRel confGE :=
  fun a b => Real.decidableLE b.confidence a.confidence

instance : IsTotal SpeciesEntry confGE :=
  ⟨fun a b => le_total b.confidence a.confidence⟩

instance : IsTrans SpeciesEntry confGE :=
  ⟨fun _ _ _ hab hbc => le_trans hbc hab⟩

/-- computeTemporalPooledDetections from app.js: empty input gives [],
a single retained set is returned unchanged, otherwise group the flattened
detections by species index, pool each group with log-mean-exp over
logits, and sort by descending confidence. -/
noncomputable def temporalPool (sets : List (List SpeciesEntry)) : List SpeciesEntry :=
  if sets.length = 0 then []
  else if sets.length = 1 then sets.headD []
  else
    List.insertionSort confGE
      ((groupByIndex sets.flatten).map
        (fun e => { e.ref with confidence := lmePool e.samples }))

/-- The `pooled` response window size TEMPORAL_POOL_WINDOW = 5 of app.js. -/
def TEMPORAL_POOL_WINDOW : ℕ := 5

/-- The core state touched by the `pooled` message handler of app.js:
the scheduler flag isListening, the retained FramePooler outputs, the
rendered detections, and the inference latency bookkeeping. -/
structure CoreState where
  isListening : Bool
  recentInferenceSets : List (List SpeciesEntry)
  latestDetections : List SpeciesEntry
  lastInferenceStart : ℝ
  lastInferenceMs : Option ℤ

/-- The `case "pooled"` branch of birdnetWorker.onmessage in app.js,
together with the `latestDetections` update of renderDetections: push the
arriving set, evict beyond TEMPORAL_POOL_WINDOW, recompute the temporally
pooled list, render it (the returned flag), and update the latency status
only when listening with a pending start timestamp.  There is no
isListening check before the push or the render. -/
noncomputable def handlePooledMsg (st : CoreState) (pooled : List SpeciesEntry)
    (now : ℝ) : CoreState × Bool :=
  let sets0 := st.recentInferenceSets ++ [pooled]
  let sets := if TEMPORAL_POOL_WINDOW < sets0.length then sets0.drop 1 else sets0
  let st2 :=
    { st with
        recentInferenceSets := sets,
        latestDetections := temporalPool sets }
  if st.isListening = true ∧ st.lastInferenceStart ≠ 0
  then ({ st2 with lastInferenceMs := some (round (now - st.lastInferenceStart)) }, true)
  else (st2, true)

/-- The state resets of stopListening in app.js (audio teardown is out of
scope): leave Capturing, clear the latency bookkeeping. -/
def stopListening (st : CoreState) : CoreState :=
  { st with isListening := false, lastInferenceStart := 0, lastInferenceMs := none }

/- ==================== Theorems: framing ==================== -/

/-- C8: for any overlapSecRaw, the realized overlap used for framing equals
clamp(round(overlapSecRaw x 2) / 2, 0, 2.5) seconds exactly, and the hop is
hopSamples = max(1, windowSamples - overlapSamples) with overlapSamples the
realized overlap converted to samples. -/
theorem overlap_quantisation (x : ℚ) :
    overlapSecOf x = specRealizedOverlap x ∧
    overlapSamplesOf x = round (overlapSecOf x * 48000) ∧
    hopSamplesOf x = max 1 (144000 - overlapSamplesOf x) ∧
    0 ≤ overlapSecOf x ∧ overlapSecOf x ≤ 5 / 2 ∧ 1 ≤ hopSamplesOf x := by
  refine ⟨?_, ?_, ?_, ?_, ?_, ?_⟩
  · rw [overlapSecOf, specRealizedOverlap, specClamp, min_max_distrib_left]
    norm_num
  · rw [overlapSamplesOf, SAMPLE_RATE]
    norm_num
  · rw [hopSamplesOf, WINDOW_SAMPLES]
    norm_num
  · rw [overlapSecOf]
    exact le_min (by norm_num) (le_max_left 0 _)
  · rw [overlapSecOf]
    exact min_le_left _ _
  · rw [hopSamplesOf]
    exact le_max_left 1 _

theorem length_jsSubarray (l : List ℚ) (b e : ℕ) :
    (jsSubarray l b e).length = min e l.length - b := by
  simp [jsSubarray]

theorem getD_jsSubarray (l : List ℚ) (b e j : ℕ) :
    (jsSubarray l b e).getD j 0 =
      if b + j < min e l.length then l.getD (b + j) 0 else 0 := by
  by_cases h : b + j < min e l.length
  · have hj : j < (jsSubarray l b e).length := by rw [length_jsSubarray]; omega
    have hbj : b + j < l.length := by omega
    rw [if_pos h, List.getD_eq_getElem _ _ hj, List.getD_eq_getElem _ _ hbj]
    show ((l.take e).drop b)[j] = l[b + j]
    rw [List.getElem_drop, List.getElem_take]
  · have hj : (jsSubarray l b e).length ≤ j := by rw [length_jsSubarray]; omega
    rw [if_neg h, List.getD_eq_default _ _ hj]

theorem frameOne_length (pcm : List ℚ) (w hop f : ℕ) :
    (frameOne pcm w hop f).length = w := by
  have h := length_jsSubarray pcm (f * hop) (min (f * hop + w) pcm.length)
  simp only [frameOne, List.length_append, List.length_replicate, h]
  omega

theorem getD_frameOne (pcm : List ℚ) (w hop f j : ℕ) (hj : j < w) :
    (frameOne pcm w hop f).getD j 0 =
      if f * hop + j < pcm.length then pcm.getD (f * hop + j) 0 else 0 := by
  have hlen := length_jsSubarray pcm (f * hop) (min (f * hop + w) pcm.length)
  rw [frameOne]
  by_cases h : j < (jsSubarray pcm (f * hop) (min (f * hop + w) pcm.length)).length
  · rw [List.getD_append _ _ _ _ h, getD_jsSubarray]
    have hc : f * hop + j < min (min (f * hop + w) pcm.length) pcm.length := by omega
    have hc2 : f * hop + j < pcm.length := by omega
    rw [if_pos hc, if_pos hc2]
  · rw [List.getD_append_right _ _ _ _ (le_of_not_lt h)]
    have hc2 : ¬ f * hop + j < pcm.length := by omega
    rw [if_neg hc2]
    simp only [List.getD_eq_getElem?_getD, List.getElem?_replicate]
    split <;> rfl

theorem writeAt_append_left (b1 b2 src : List ℚ) (pos : ℕ)
    (h : pos + src.length ≤ b1.length) :
    writeAt (b1 ++ b2) pos src = writeAt b1 pos src ++ b2 := by
  rw [writeAt, writeAt,
    List.take_append_of_le_length (by omega),
    List.drop_append_of_le_length (by omega)]
  simp

theorem writeAt_prefix (b1 b2 src : List ℚ) :
    writeAt (b1 ++ b2) b1.length src = b1 ++ writeAt b2 0 src := by
  rw [writeAt, writeAt, List.take_left, List.drop_append]
  simp

theorem length_frames_flatMap (pcm : List ℚ) (w hop : ℕ) :
    ∀ n, ((List.range n).flatMap (frameOne pcm w hop)).length = n * w := by
  intro n
  induction n with
  | zero => simp
  | succ m ih =>
    rw [List.range_succ, List.flatMap_append, List.length_append, ih]
    simp only [List.flatMap_cons, List.flatMap_nil, List.append_nil, frameOne_length]
    ring

theorem framedBuf_go (pcm : List ℚ) (w hop : ℕ) :
    ∀ n extra : ℕ,
      (List.range n).foldl
        (fun buf f =>
          writeAt buf (f * w)
            (jsSubarray pcm (f * hop) (min (f * hop + w) pcm.length)))
        (List.replicate (n * w + extra) 0)
      = (List.range n).flatMap (frameOne pcm w hop) ++ List.replicate extra 0 := by
  intro n
  induction n with
  | zero => intro extra; simp
  | succ m ih =>
    intro extra
    rw [List.range_succ, List.foldl_append]
    have harith : (m + 1) * w + extra = m * w + (w + extra) := by ring
    rw [harith, ih (w + extra)]
    simp only [List.foldl_cons, List.foldl_nil]
    have hblen := length_frames_flatMap pcm w hop m
    have hsrc := length_jsSubarray pcm (m * hop) (min (m * hop + w) pcm.length)
    rw [show m * w = ((List.range m).flatMap (frameOne pcm w hop)).length from hblen.symm,
      writeAt_prefix]
    rw [List.flatMap_append]
    have hstep :
        writeAt (List.replicate (w + extra) 0) 0
            (jsSubarray pcm (m * hop) (min (m * hop + w) pcm.length))
          = frameOne pcm w hop m ++ List.replicate extra 0 := by
      rw [writeAt, frameOne]
      rw [List.drop_replicate]
      have hr : w + extra - (0 + (jsSubarray pcm (m * hop) (min (m * hop + w) pcm.length)).length)
          = (w - (jsSubarray pcm (m * hop) (min (m * hop + w) pcm.length)).length) + extra := by
        omega
      rw [hr, List.replicate_add]
      simp
    rw [hstep]
    simp

theorem framedBuf_eq_flatMap (pcm : List ℚ) (w hop n : ℕ) :
    framedBuf pcm w hop n = (List.range n).flatMap (frameOne pcm w hop) := by
  have h := framedBuf_go pcm w hop n 0
  simpa [framedBuf] using h

theorem framedBuf_length (pcm : List ℚ) (w hop n : ℕ) :
    (framedBuf pcm w hop n).length = n * w := by
  rw [framedBuf_eq_flatMap, length_frames_flatMap]

theorem getD_frames_flatMap (pcm : List ℚ) (w hop : ℕ) :
    ∀ n f j, f < n → j < w →
      ((List.range n).flatMap (frameOne pcm w hop)).getD (f * w + j) 0
        = (frameOne pcm w hop f).getD j 0 := by
  intro n
  induction n with
  | zero => intro f j hf; omega
  | succ m ih =>
    intro f j hf hj
    rw [List.range_succ, List.flatMap_append]
    by_cases hfm : f < m
    · have hidx : f * w + j < ((List.range m).flatMap (frameOne pcm w hop)).length := by
        rw [length_frames_flatMap]
        have hmul : (f + 1) * w ≤ m * w := Nat.mul_le_mul_right w (by omega)
        have hexp : (f + 1) * w = f * w + w := by ring
        omega
      rw [List.getD_append _ _ _ _ hidx]
      exact ih f j hfm hj
    · have hfe : f = m := by omega
      subst hfe
      have hidx : ((List.range f).flatMap (frameOne pcm w hop)).length ≤ f * w + j := by
        rw [length_frames_flatMap]; omega
      rw [List.getD_append_right _ _ _ _ hidx, length_frames_flatMap]
      simp

/-- C1: for a predict request with input length total, hop at least 1 and
window length w, the engine produces exactly
numFrames = max(1, ceil(max(0, total - w) / hop) + 1) frames, laid out
contiguously in a flat buffer of numFrames x w samples in which frame f
holds input samples [f x hop, f x hop + w) clipped to the input length and
zero padded on the right; in particular total = 144000, w = 144000,
hop = 144000 gives 1 frame and total = 288000, w = 144000, hop = 72000
gives 3 frames. -/
theorem predict_framing (pcm : List ℚ) (w hop : ℕ) (_hhop : 1 ≤ hop) :
    (framedBuf pcm w hop (numFramesJS pcm.length w hop)).length
        = numFramesJS pcm.length w hop * w ∧
    (∀ f j, f < numFramesJS pcm.length w hop → j < w →
        (framedBuf pcm w hop (numFramesJS pcm.length w hop)).getD (f * w + j) 0
          = if f * hop + j < pcm.length then pcm.getD (f * hop + j) 0 else 0) ∧
    numFramesJS pcm.length w hop
        = max 1 ((⌈(max 0 ((pcm.length : ℚ) - w)) / hop⌉).toNat + 1) ∧
    numFramesJS 144000 144000 144000 = 1 ∧
    numFramesJS 288000 144000 72000 = 3 := by
  refine ⟨framedBuf_length pcm w hop _, ?_, rfl, ?_, ?_⟩
  · intro f j hf hj
    rw [framedBuf_eq_flatMap, getD_frames_flatMap pcm w hop _ f j hf hj,
      getD_frameOne pcm w hop f j hj]
  · rw [numFramesJS]
    norm_num
  · rw [numFramesJS]
    have h2 : (max 0 (((288000 : ℕ) : ℚ) - ((144000 : ℕ) : ℚ))) / ((72000 : ℕ) : ℚ)
        = ((2 : ℤ) : ℚ) := by
      push_cast
      norm_num
    rw [h2, Int.ceil_intCast]
    rfl

/-- Witness for predict_framing at pcm = [1, 2, 3], w = 2, hop = 1. -/
theorem predict_framing_witness :
    (1 : ℕ) ≤ 1 ∧
    ((framedBuf [(1 : ℚ), 2, 3] 2 1 (numFramesJS ([(1 : ℚ), 2, 3]).length 2 1)).length
        = numFramesJS ([(1 : ℚ), 2, 3]).length 2 1 * 2 ∧
    (∀ f j, f < numFramesJS ([(1 : ℚ), 2, 3]).length 2 1 → j < 2 →
        (framedBuf [(1 : ℚ), 2, 3] 2 1 (numFramesJS ([(1 : ℚ), 2, 3]).length 2 1)).getD
            (f * 2 + j) 0
          = if f * 1 + j < ([(1 : ℚ), 2, 3]).length
            then ([(1 : ℚ), 2, 3]).getD (f * 1 + j) 0 else 0) ∧
    numFramesJS ([(1 : ℚ), 2, 3]).length 2 1
        = max 1 ((⌈(max 0 ((([(1 : ℚ), 2, 3]).length : ℚ) - 2)) / 1⌉).toNat + 1) ∧
    numFramesJS 144000 144000 144000 = 1 ∧
    numFramesJS 288000 144000 72000 = 3) :=
  ⟨le_refl 1, predict_framing [(1 : ℚ), 2, 3] 2 1 (le_refl 1)⟩

/- ==================== Theorems: ring buffer ==================== -/

theorem ringWrite_buf_length (r : RingBuf) (x : ℚ) :
    (ringWrite r x).buf.length = r.buf.length := by
  simp [ringWrite]

theorem ringWrite_widx_lt (r : RingBuf) (x : ℚ) (h : 0 < r.buf.length) :
    (ringWrite r x).widx < (ringWrite r x).buf.length := by
  simp only [ringWrite, List.length_set]
  exact Nat.mod_lt _ h

theorem ringWriteAll_inv (n : ℕ) (hn : 1 ≤ n) :
    ∀ (xs : List ℚ) (r : RingBuf), r.buf.length = n → r.widx < n →
      (ringWriteAll r xs).buf.length = n ∧ (ringWriteAll r xs).widx < n := by
  intro xs
  induction xs with
  | nil => intro r h1 h2; exact ⟨h1, h2⟩
  | cons x xs ih =>
    intro r h1 h2
    rw [ringWriteAll, List.foldl_cons]
    have hl := ringWrite_buf_length r x
    have hw := ringWrite_widx_lt r x (by omega)
    exact ih (ringWrite r x) (by omega) (by omega)

theorem snapshot_length (r : RingBuf) : (snapshot r).length = r.buf.length := by
  simp [snapshot]

theorem snapshot_getElem (r : RingBuf) (i : ℕ) (h : i < (snapshot r).length) :
    (snapshot r)[i] = clamp1 (r.buf.getD ((r.widx + i) % r.buf.length) 0) := by
  simp [snapshot]

theorem snapshot_ringWrite (r : RingBuf) (x : ℚ) (hw : r.widx < r.buf.length) :
    snapshot (ringWrite r x) = (snapshot r).tail ++ [clamp1 x] := by
  have hn : 0 < r.buf.length := by omega
  have hlenW : (ringWrite r x).buf.length = r.buf.length := ringWrite_buf_length r x
  apply List.ext_getElem
  · rw [snapshot_length, hlenW, List.length_append, List.length_tail, snapshot_length,
      List.length_singleton]
    omega
  · intro i h1 h2
    rw [snapshot_length, hlenW] at h1
    rw [snapshot_getElem (ringWrite r x) i (by rw [snapshot_length, hlenW]; exact h1)]
    have htail_len : (snapshot r).tail.length = r.buf.length - 1 := by
      rw [List.length_tail, snapshot_length]
    by_cases hi : i < r.buf.length - 1
    · rw [List.getElem_append_left (by rw [htail_len]; exact hi)]
      rw [List.getElem_tail]
      rw [snapshot_getElem r (i + 1) (by rw [snapshot_length]; omega)]
      simp only [ringWrite, List.length_set]
      have hmod : ((r.widx + 1) % r.buf.length + i) % r.buf.length
          = (r.widx + (i + 1)) % r.buf.length := by
        rw [Nat.mod_add_mod]
        congr 1
        ring
      rw [hmod]
      have hlt : (r.widx + (i + 1)) % r.buf.length < r.buf.length := Nat.mod_lt _ hn
      have hne : (r.widx + (i + 1)) % r.buf.length ≠ r.widx := by
        intro hcon
        rcases Nat.lt_or_ge (r.widx + (i + 1)) r.buf.length with hcase | hcase
        · rw [Nat.mod_eq_of_lt hcase] at hcon
          omega
        · have hsub : (r.widx + (i + 1)) % r.buf.length
              = r.widx + (i + 1) - r.buf.length := by
            rw [Nat.mod_eq_sub_mod hcase, Nat.mod_eq_of_lt (by omega)]
          rw [hsub] at hcon
          omega
      have hgl : (r.buf.set r.widx x).getD ((r.widx + (i + 1)) % r.buf.length) 0
          = r.buf.getD ((r.widx + (i + 1)) % r.buf.length) 0 := by
        rw [List.getD_eq_getElem _ _ (by rw [List.length_set]; exact hlt),
          List.getD_eq_getElem _ _ hlt, List.getElem_set,
          if_neg (fun hcon => hne hcon.symm)]
      rw [hgl]
    · have hie : i = r.buf.length - 1 := by omega
      rw [List.getElem_append_right (by rw [htail_len]; omega)]
      simp only [htail_len, hie, Nat.sub_self, List.getElem_singleton]
      simp only [ringWrite, List.length_set]
      have hmod : ((r.widx + 1) % r.buf.length + (r.buf.length - 1)) % r.buf.length
          = r.widx := by
        rw [Nat.mod_add_mod]
        have heq : r.widx + 1 + (r.buf.length - 1) = r.widx + r.buf.length := by omega
        rw [heq, Nat.add_mod_right, Nat.mod_eq_of_lt hw]
      rw [hmod]
      have hgl : (r.buf.set r.widx x).getD r.widx 0 = x := by
        rw [List.getD_eq_getElem _ _ (by rw [List.length_set]; exact hw), List.getElem_set,
          if_pos rfl]
      rw [hgl]

theorem snapshot_mkRing (n : ℕ) :
    snapshot (mkRing n) = List.replicate n 0 := by
  apply List.ext_getElem
  · simp [snapshot_length, mkRing]
  · intro i h1 h2
    rw [snapshot_length] at h1
    simp only [snapshot, mkRing, List.length_replicate, List.getElem_map, List.getElem_range,
      List.getElem_replicate]
    have hlt : (0 + i) % n < n := by
      apply Nat.mod_lt
      simp only [mkRing, List.length_replicate] at h1
      omega
    rw [List.getD_eq_getElem _ _ (by rw [List.length_replicate]; exact hlt),
      List.getElem_replicate]
    rw [clamp1]
    norm_num


theorem ringWriteAll_append_singleton (r : RingBuf) (ys : List ℚ) (x : ℚ) :
    ringWriteAll r (ys ++ [x]) = ringWrite (ringWriteAll r ys) x := by
  rw [ringWriteAll, ringWriteAll, List.foldl_append, List.foldl_cons, List.foldl_nil]

theorem ring_snapshot_general (n : ℕ) (hn : 1 ≤ n) :
    ∀ xs : List ℚ,
      snapshot (ringWriteAll (mkRing n) xs)
        = ((List.replicate n (0 : ℚ) ++ xs).drop xs.length).map clamp1 := by
  intro xs
  induction xs using List.reverseRecOn with
  | nil =>
    rw [show ringWriteAll (mkRing n) [] = mkRing n from rfl, snapshot_mkRing]
    simp only [List.append_nil, List.length_nil, List.drop_zero]
    apply List.ext_getElem
    · simp
    · intro i h1 h2
      simp only [List.getElem_replicate, List.getElem_map]
      have h3 : min (1 : ℚ) 0 = 0 := min_eq_right (by norm_num)
      have h4 : max (-1 : ℚ) 0 = 0 := max_eq_right (by norm_num)
      rw [clamp1, h3, h4]
  | append_singleton ys x ih =>
    obtain ⟨hinv1, hinv2⟩ := ringWriteAll_inv n hn ys (mkRing n) (by simp [mkRing])
      (by simp only [mkRing]; omega)
    rw [ringWriteAll_append_singleton,
      snapshot_ringWrite (ringWriteAll (mkRing n) ys) x (by rw [hinv1]; exact hinv2), ih]
    have hlen2 : ys.length + 1 ≤ (List.replicate n (0 : ℚ) ++ ys).length := by
      simp only [List.length_append, List.length_replicate]
      omega
    calc (((List.replicate n (0 : ℚ) ++ ys).drop ys.length).map clamp1).tail ++ [clamp1 x]
        = (((List.replicate n (0 : ℚ) ++ ys).drop ys.length).tail).map clamp1
            ++ [clamp1 x] := by
          rw [List.map_tail]
      _ = (((List.replicate n (0 : ℚ) ++ ys).drop (ys.length + 1)).map clamp1)
            ++ [clamp1 x] := by
          rw [List.tail_drop]
      _ = ((List.replicate n (0 : ℚ) ++ ys ++ [x]).drop (ys.length + 1)).map clamp1 := by
          rw [List.drop_append_of_le_length hlen2, List.map_append]
          rfl
      _ = ((List.replicate n (0 : ℚ) ++ (ys ++ [x])).drop (ys ++ [x]).length).map clamp1 := by
          rw [← List.append_assoc, List.length_append, List.length_singleton]

/-- C2: writing a sequence of samples into the zero-initialised ring of
capacity n (the source uses n = WINDOW_SAMPLES) and then taking a
snapshot returns the most recent n samples in chronological order, each
clamped to [-1, 1]: after exactly n samples the snapshot is the whole
sequence, after n + k samples it is the samples from index k on.  The
snapshot is a pure read (a function of the ring state) and leaves the
ring unchanged by construction. -/
theorem ring_snapshot_recent (n k : ℕ) (xs : List ℚ) (hn : 1 ≤ n)
    (hlen : xs.length = n + k) :
    snapshot (ringWriteAll (mkRing n) xs) = (xs.drop k).map clamp1 := by
  rw [ring_snapshot_general n hn xs, hlen]
  have h1 : n + k = n + k := rfl
  rw [show List.drop (n + k) (List.replicate n (0 : ℚ) ++ xs)
      = List.drop k (List.drop n (List.replicate n (0 : ℚ) ++ xs)) by
    rw [List.drop_drop]]
  rw [show List.drop n (List.replicate n (0 : ℚ) ++ xs) = xs from
    List.drop_left' (List.length_replicate _ _)]

/-- Witness for ring_snapshot_recent: capacity 2, five samples written,
snapshot returns the clamped last two. -/
theorem ring_snapshot_recent_witness :
    1 ≤ 2 ∧ ([(5 : ℚ), 4, 3, 2, -7] : List ℚ).length = 2 + 3 ∧
    snapshot (ringWriteAll (mkRing 2) [(5 : ℚ), 4, 3, 2, -7])
      = (([(5 : ℚ), 4, 3, 2, -7].drop 3).map clamp1) ∧
    (([(5 : ℚ), 4, 3, 2, -7].drop 3).map clamp1) = [(1 : ℚ), -1] :=
  ⟨by norm_num, by rfl,
    ring_snapshot_recent 2 3 [(5 : ℚ), 4, 3, 2, -7] (by norm_num) (by rfl),
    by rfl⟩

/- ==================== Theorems: frame pooler and sensitivity ==================== -/

/-- C4: for every prediction matrix, the frame pooler returns per class i
pooled[i] = ln((1/numFrames) x sum over frames of exp(5.0 x p[f][i])) / 5.0,
computed directly on the probability values, and for a single frame the
pooled row equals that row unchanged. -/
theorem frame_pooler_log_mean_exp :
    (∀ (plist : List (List ℝ)) (i : ℕ), i < (plist.headD []).length →
      (poolMeans plist).getD i 0
        = Real.log ((1 / (plist.length : ℝ))
            * (plist.map (fun row => Real.exp (ALPHA * row.getD i 0))).sum) / ALPHA)
    ∧ (∀ row : List ℝ, poolMeans [row] = row) := by
  constructor
  · intro plist i hi
    have hlen : i < (poolMeans plist).length := by
      simpa [poolMeans] using hi
    rw [List.getD_eq_getElem _ _ hlen]
    simp only [poolMeans, List.getElem_map, List.getElem_range]
    rw [one_div_mul_eq_div]
  · intro row
    apply List.ext_getElem
    · simp [poolMeans]
    · intro i h1 h2
      have hlen1 : (([row] : List (List ℝ)).length : ℝ) = 1 := by norm_num
      simp only [poolMeans, List.headD_cons, List.getElem_map, List.getElem_range,
        List.map_cons, List.map_nil, List.sum_cons, List.sum_nil, add_zero]
      rw [hlen1, div_one, Real.log_exp,
        mul_div_cancel_left₀ _ (show (ALPHA : ℝ) ≠ 0 by rw [ALPHA]; norm_num),
        List.getD_eq_getElem _ _ h2]

/-- Witness for frame_pooler_log_mean_exp at the one-frame, one-class
matrix [[1/2]]. -/
theorem frame_pooler_witness :
    (0 < (([[(1 : ℝ) / 2]] : List (List ℝ)).headD []).length) ∧
    ((poolMeans [[(1 : ℝ) / 2]]).getD 0 0
      = Real.log ((1 / (([[(1 : ℝ) / 2]] : List (List ℝ)).length : ℝ))
          * (([[(1 : ℝ) / 2]] : List (List ℝ)).map
              (fun row => Real.exp (ALPHA * row.getD 0 0))).sum) / ALPHA) ∧
    poolMeans [[(1 : ℝ) / 2]] = [(1 : ℝ) / 2] :=
  ⟨by norm_num,
    frame_pooler_log_mean_exp.1 [[(1 : ℝ) / 2]] 0 (by norm_num),
    frame_pooler_log_mean_exp.2 [(1 : ℝ) / 2]⟩

/-- C6: sensitivity 1.0 leaves the raw probabilities untouched (the
transform branch is skipped, so values are not even re-clipped); for
s different from 1 every probability p is replaced by
sigmoid(logit(clip(p, eps, 1 - eps)) + (s - 1) x 5) with eps = 1e-7; and
the transform happens before pooling: the cached pooled means are the
pool of the transformed matrix. -/
theorem sensitivity_transform (preds : List (List ℝ)) (s : ℝ) (hs : s ≠ 1)
    (st : WorkerState) (model : List ℚ → ℕ → List (List ℝ))
    (hbm : st.birdModel = some model) (pcm : List ℚ) (ov : ℚ) (sv : SensVal) :
    sensitivityStep preds 1 = preds ∧
    sensitivityStep preds s = applySensitivity preds s ∧
    (∀ fi pi : ℕ, fi < preds.length → pi < (preds.getD fi []).length →
      ((sensitivityStep preds s).getD fi []).getD pi 0
        = 1 / (1 + Real.exp (-(Real.log
            ((max sensEps (min (1 - sensEps) ((preds.getD fi []).getD pi 0)))
              / (1 - max sensEps (min (1 - sensEps) ((preds.getD fi []).getD pi 0))))
            + (s - 1) * 5)))) ∧
    (handlePredict st pcm ov sv).1.lastMeans
      = some (poolMeans (sensitivityStep
          (model (framedBuf pcm WINDOW_SAMPLES ((hopSamplesOf ov).toNat)
            (numFramesJS pcm.length WINDOW_SAMPLES ((hopSamplesOf ov).toNat)))
            (numFramesJS pcm.length WINDOW_SAMPLES ((hopSamplesOf ov).toNat)))
          (parseSens sv))) := by
  refine ⟨by rw [sensitivityStep, if_pos rfl], by rw [sensitivityStep, if_neg hs], ?_, ?_⟩
  · intro fi pi hfi hpi
    rw [sensitivityStep, if_neg hs]
    have hget : preds.getD fi [] = preds[fi] := List.getD_eq_getElem _ _ hfi
    rw [hget] at hpi ⊢
    have h1 : fi < (applySensitivity preds s).length := by
      simpa [applySensitivity] using hfi
    rw [List.getD_eq_getElem _ _ h1]
    simp only [applySensitivity, List.getElem_map]
    have h2 : pi < (preds[fi].map (fun p =>
        1 / (1 + Real.exp (-(Real.log ((max sensEps (min (1 - sensEps) p))
          / (1 - max sensEps (min (1 - sensEps) p))) + (s - 1) * 5))))).length := by
      simpa using hpi
    rw [List.getD_eq_getElem _ _ h2]
    simp only [List.getElem_map]
    rw [List.getD_eq_getElem _ _ hpi]
  · rcases st with ⟨bm, am, birds, lp, lm, lh, lnf, lws⟩
    simp only at hbm
    subst hbm
    rfl

/-- Witness for sensitivity_transform at preds = [[1/4]], s = 2, and a
worker state with a constant model. -/
theorem sensitivity_transform_witness :
    ((2 : ℝ) ≠ 1) ∧
    (({ birdModel := some (fun _ _ => [[(1 : ℝ) / 2]]), areaModel := none,
        birds := [], lastPredictionList := none, lastMeans := none,
        lastHopSamples := none, lastNumFrames := 0,
        lastWindowSize := WINDOW_SAMPLES } : WorkerState).birdModel
      = some (fun _ _ => [[(1 : ℝ) / 2]])) ∧
    (sensitivityStep [[(1 : ℝ) / 4]] 1 = [[(1 : ℝ) / 4]] ∧
      sensitivityStep [[(1 : ℝ) / 4]] 2 = applySensitivity [[(1 : ℝ) / 4]] 2 ∧
      (∀ fi pi : ℕ, fi < ([[(1 : ℝ) / 4]] : List (List ℝ)).length →
        pi < (([[(1 : ℝ) / 4]] : List (List ℝ)).getD fi []).length →
        ((sensitivityStep [[(1 : ℝ) / 4]] 2).getD fi []).getD pi 0
          = 1 / (1 + Real.exp (-(Real.log
              ((max sensEps (min (1 - sensEps)
                  ((([[(1 : ℝ) / 4]] : List (List ℝ)).getD fi []).getD pi 0)))
                / (1 - max sensEps (min (1 - sensEps)
                  ((([[(1 : ℝ) / 4]] : List (List ℝ)).getD fi []).getD pi 0))))
              + ((2 : ℝ) - 1) * 5)))) ∧
      (handlePredict
          { birdModel := some (fun _ _ => [[(1 : ℝ) / 2]]), areaModel := none,
            birds := [], lastPredictionList := none, lastMeans := none,
            lastHopSamples := none, lastNumFrames := 0,
            lastWindowSize := WINDOW_SAMPLES } [] 0 SensVal.undef).1.lastMeans
        = some (poolMeans (sensitivityStep
            ((fun _ _ => [[(1 : ℝ) / 2]])
              (framedBuf [] WINDOW_SAMPLES ((hopSamplesOf 0).toNat)
                (numFramesJS (List.length ([] : List ℚ)) WINDOW_SAMPLES
                  ((hopSamplesOf 0).toNat)))
              (numFramesJS (List.length ([] : List ℚ)) WINDOW_SAMPLES
                ((hopSamplesOf 0).toNat)))
            (parseSens SensVal.undef)))) :=
  ⟨by norm_num, rfl,
    sensitivity_transform [[(1 : ℝ) / 4]] 2 (by norm_num)
      { birdModel := some (fun _ _ => [[(1 : ℝ) / 2]]), areaModel := none,
        birds := [], lastPredictionList := none, lastMeans := none,
        lastHopSamples := none, lastNumFrames := 0, lastWindowSize := WINDOW_SAMPLES }
      (fun _ _ => [[(1 : ℝ) / 2]]) rfl [] 0 SensVal.undef⟩

/-- C10: a falsy sensitivity field (missing, null, empty string, or the
number 0) makes the engine behave exactly as if sensitivity were 1.0: the
parsed value is 1, the transform is skipped, and the whole predict cycle
is identical to one with sensitivity 1. -/
theorem falsy_sensitivity_defaults (v : SensVal) (hv : jsFalsySens v) :
    parseSens v = 1 ∧
    (∀ preds : List (List ℝ), sensitivityStep preds (parseSens v) = preds) ∧
    (∀ (st : WorkerState) (pcm : List ℚ) (ov : ℚ),
      handlePredict st pcm ov v = handlePredict st pcm ov (SensVal.num 1)) := by
  have hp : parseSens v = 1 := by
    cases v with
    | undef => rfl
    | nullv => rfl
    | emptyText => rfl
    | num x =>
      have hx : x = 0 := hv
      subst hx
      simp [parseSens]
  have hp1 : parseSens (SensVal.num 1) = 1 := by
    simp [parseSens]
  refine ⟨hp, ?_, ?_⟩
  · intro preds
    rw [hp, sensitivityStep, if_pos rfl]
  · intro st pcm ov
    rcases st with ⟨bm, am, birds, lp, lm, lh, lnf, lws⟩
    cases bm with
    | none => rfl
    | some model =>
      simp only [handlePredict, hp, hp1]

/-- Witness for falsy_sensitivity_defaults at the number 0. -/
theorem falsy_sensitivity_witness :
    jsFalsySens (SensVal.num 0) ∧
    (parseSens (SensVal.num 0) = 1 ∧
      (∀ preds : List (List ℝ), sensitivityStep preds (parseSens (SensVal.num 0)) = preds) ∧
      (∀ (st : WorkerState) (pcm : List ℚ) (ov : ℚ),
        handlePredict st pcm ov (SensVal.num 0) = handlePredict st pcm ov (SensVal.num 1))) :=
  ⟨rfl, falsy_sensitivity_defaults (SensVal.num 0) rfl⟩

/- ==================== Theorems: geo fusion ==================== -/

theorem length_mkPooled (birds : List Bird) (means : List ℝ) :
    (mkPooled birds means).length = means.length := by
  simp [mkPooled]

theorem mkPooled_getD_confidence (birds : List Bird) (means : List ℝ) (i : ℕ) :
    ((mkPooled birds means).getD i defaultEntry).confidence = means.getD i 0 := by
  by_cases h : i < means.length
  · have h2 : i < (mkPooled birds means).length := by rw [length_mkPooled]; exact h
    rw [List.getD_eq_getElem _ _ h2, List.getD_eq_getElem _ _ h]
    simp [mkPooled]
  · rw [List.getD_eq_default _ _ (by rw [length_mkPooled]; omega),
      List.getD_eq_default _ _ (by omega)]
    rfl

theorem updateGeoscores_names (birds : List Bird) (scores : List ℝ) (i : ℕ) :
    (updateGeoscores birds scores).length = birds.length ∧
    ((updateGeoscores birds scores).getD i defaultBird).scientificName
      = (birds.getD i defaultBird).scientificName ∧
    ((updateGeoscores birds scores).getD i defaultBird).commonName
      = (birds.getD i defaultBird).commonName ∧
    ((updateGeoscores birds scores).getD i defaultBird).commonNameI18n
      = (birds.getD i defaultBird).commonNameI18n := by
  have hlen : (updateGeoscores birds scores).length = birds.length := by
    simp [updateGeoscores]
  refine ⟨hlen, ?_, ?_, ?_⟩ <;>
  · by_cases h : i < birds.length
    · rw [List.getD_eq_getElem _ _ (by rw [hlen]; exact h), List.getD_eq_getElem _ _ h]
      simp [updateGeoscores]
    · rw [List.getD_eq_default _ _ (by rw [hlen]; omega), List.getD_eq_default _ _ (by omega)]

theorem sameExceptGeo_refl (a : SpeciesEntry) : sameExceptGeo a a :=
  ⟨rfl, rfl, rfl, rfl, rfl⟩

theorem replay_sameExceptGeo (birds : List Bird) (scores : List ℝ) (means : List ℝ) :
    ∀ i, sameExceptGeo
      ((mkPooled (updateGeoscores birds scores) means).getD i defaultEntry)
      ((mkPooled birds means).getD i defaultEntry) := by
  intro i
  by_cases h : i < means.length
  · have h2 : i < (mkPooled (updateGeoscores birds scores) means).length := by
      rw [length_mkPooled]; exact h
    have h3 : i < (mkPooled birds means).length := by
      rw [length_mkPooled]; exact h
    rw [List.getD_eq_getElem _ _ h2, List.getD_eq_getElem _ _ h3]
    obtain ⟨hl, hs, hc, hi18⟩ := updateGeoscores_names birds scores i
    simp only [List.getD_eq_getElem?_getD] at hs hc hi18
    refine ⟨?_, ?_, ?_, ?_, ?_⟩ <;>
      simp [mkPooled, List.getElem_enum, hs, hc, hi18]
  · rw [List.getD_eq_default _ _ (by rw [length_mkPooled]; omega),
      List.getD_eq_default _ _ (by rw [length_mkPooled]; omega)]
    exact sameExceptGeo_refl _

/-- C3: with a cached prediction matrix, the pooled view re-emitted by the
area-scores replay has per-class confidences numerically identical to the
frame pooler run directly on the cached matrix (the cached means are the
pool of the cached matrix, and handlePredict always re-establishes that
invariant), and the replayed entries agree with the originally emitted
pooled entries on every field except the geoscore. -/
theorem geo_replay_pooled (st : WorkerState) (plist : List (List ℝ))
    (g : ℝ → ℝ → ℤ → List ℝ) (lat lon : ℝ) (wk : ℤ)
    (hg : st.areaModel = some g)
    (hp : st.lastPredictionList = some plist)
    (hm : st.lastMeans = some (poolMeans plist)) :
    (∀ (st2 : WorkerState) (model : List ℚ → ℕ → List (List ℝ)) (pcm : List ℚ)
        (ov : ℚ) (sv : SensVal), st2.birdModel = some model →
      ∃ preds, (handlePredict st2 pcm ov sv).1.lastPredictionList = some preds ∧
        (handlePredict st2 pcm ov sv).1.lastMeans = some (poolMeans preds)) ∧
    WorkerMsg.pooled
        (mkPooled (updateGeoscores st.birds (g lat lon wk)) (poolMeans plist))
      ∈ (handleAreaScores st lat lon wk).2 ∧
    (∀ i, ((mkPooled (updateGeoscores st.birds (g lat lon wk))
          (poolMeans plist)).getD i defaultEntry).confidence
        = (poolMeans plist).getD i 0) ∧
    (∀ i, sameExceptGeo
      ((mkPooled (updateGeoscores st.birds (g lat lon wk))
          (poolMeans plist)).getD i defaultEntry)
      ((mkPooled st.birds (poolMeans plist)).getD i defaultEntry)) := by
  refine ⟨?_, ?_, fun i => mkPooled_getD_confidence _ _ i,
    replay_sameExceptGeo st.birds (g lat lon wk) (poolMeans plist)⟩
  · intro st2 model pcm ov sv hbm
    rcases st2 with ⟨bm, am, birds, lp, lm, lh, lnf, lws⟩
    simp only at hbm
    subst hbm
    exact ⟨_, rfl, rfl⟩
  · rcases st with ⟨bm, am, birds, lp, lm, lh, lnf, lws⟩
    simp only at hg hp hm ⊢
    subst hg
    subst hp
    subst hm
    cases lh with
    | none => simp [handleAreaScores]
    | some hop => simp [handleAreaScores]

/-- Witness for geo_replay_pooled at a one-class cache. -/
theorem geo_replay_pooled_witness :
    (({ birdModel := none, areaModel := some (fun _ _ _ => [(1 : ℝ) / 2]),
        birds := [defaultBird], lastPredictionList := some [[(3 : ℝ) / 4]],
        lastMeans := some (poolMeans [[(3 : ℝ) / 4]]), lastHopSamples := some 1,
        lastNumFrames := 1, lastWindowSize := WINDOW_SAMPLES } : WorkerState).areaModel
      = some (fun _ _ _ => [(1 : ℝ) / 2])) ∧
    ((∀ (st2 : WorkerState) (model : List ℚ → ℕ → List (List ℝ)) (pcm : List ℚ)
        (ov : ℚ) (sv : SensVal), st2.birdModel = some model →
      ∃ preds, (handlePredict st2 pcm ov sv).1.lastPredictionList = some preds ∧
        (handlePredict st2 pcm ov sv).1.lastMeans = some (poolMeans preds)) ∧
    WorkerMsg.pooled
        (mkPooled (updateGeoscores [defaultBird] ((fun _ _ _ => [(1 : ℝ) / 2]) 0 0 1))
          (poolMeans [[(3 : ℝ) / 4]]))
      ∈ (handleAreaScores
          { birdModel := none, areaModel := some (fun _ _ _ => [(1 : ℝ) / 2]),
            birds := [defaultBird], lastPredictionList := some [[(3 : ℝ) / 4]],
            lastMeans := some (poolMeans [[(3 : ℝ) / 4]]), lastHopSamples := some 1,
            lastNumFrames := 1, lastWindowSize := WINDOW_SAMPLES } 0 0 1).2 ∧
    (∀ i, ((mkPooled (updateGeoscores [defaultBird] ((fun _ _ _ => [(1 : ℝ) / 2]) 0 0 1))
          (poolMeans [[(3 : ℝ) / 4]])).getD i defaultEntry).confidence
        = (poolMeans [[(3 : ℝ) / 4]]).getD i 0) ∧
    (∀ i, sameExceptGeo
      ((mkPooled (updateGeoscores [defaultBird] ((fun _ _ _ => [(1 : ℝ) / 2]) 0 0 1))
          (poolMeans [[(3 : ℝ) / 4]])).getD i defaultEntry)
      ((mkPooled [defaultBird] (poolMeans [[(3 : ℝ) / 4]])).getD i defaultEntry))) :=
  ⟨rfl, geo_replay_pooled
    { birdModel := none, areaModel := some (fun _ _ _ => [(1 : ℝ) / 2]),
      birds := [defaultBird], lastPredictionList := some [[(3 : ℝ) / 4]],
      lastMeans := some (poolMeans [[(3 : ℝ) / 4]]), lastHopSamples := some 1,
      lastNumFrames := 1, lastWindowSize := WINDOW_SAMPLES }
    [[(3 : ℝ) / 4]] (fun _ _ _ => [(1 : ℝ) / 2]) 0 0 1 rfl rfl rfl⟩

theorem handleAreaScores_none (st : WorkerState) (lat lon : ℝ) (wk : ℤ)
    (h : st.areaModel = none) : handleAreaScores st lat lon wk = (st, []) := by
  rcases st with ⟨bm, am, birds, lp, lm, lh, lnf, lws⟩
  simp only at h
  subst h
  rfl

theorem workerStep_areaModel (st : WorkerState) (r : WorkerReq) :
    (workerStep st r).areaModel = st.areaModel := by
  rcases st with ⟨bm, am, birds, lp, lm, lh, lnf, lws⟩
  cases r with
  | predict pcm ov sv =>
    cases bm with
    | none => rfl
    | some m => rfl
  | areaScores lat lon wk =>
    cases am with
    | none => rfl
    | some gm => rfl
  | loadLabels base i18n => rfl

theorem loadLabelsBirds_geoscore (base i18n : List String) :
    allGeoscoresOne (loadLabelsBirds base i18n) := by
  intro b hb
  rw [List.mem_iff_getElem] at hb
  obtain ⟨i, hi, heq⟩ := hb
  rw [← heq]
  simp [loadLabelsBirds]

theorem applyLoadLabels_geoscore (st : WorkerState) (base i18n : List String)
    (h : allGeoscoresOne st.birds) :
    allGeoscoresOne (applyLoadLabels st base i18n).birds := by
  intro b hb
  simp only [applyLoadLabels] at hb
  by_cases hc : st.birds.length = (loadLabelsBirds base i18n).length
  · rw [if_pos hc] at hb
    rw [List.mem_iff_getElem] at hb
    obtain ⟨i, hi, heq⟩ := hb
    rw [← heq]
    simp only [List.getElem_mapIdx]
    by_cases hib : i < st.birds.length
    · exact h _ (by rw [List.getD_eq_getElem _ _ hib]; exact List.getElem_mem hib)
    · rw [List.getD_eq_default _ _ (by omega)]
      rfl
  · rw [if_neg hc] at hb
    exact loadLabelsBirds_geoscore base i18n b hb

theorem workerStep_geoscores (st : WorkerState) (r : WorkerReq)
    (hg : allGeoscoresOne st.birds) :
    st.areaModel = none → allGeoscoresOne (workerStep st r).birds := by
  intro ha
  rcases st with ⟨bm, am, birds, lp, lm, lh, lnf, lws⟩
  simp only at ha
  subst ha
  cases r with
  | predict pcm ov sv =>
    cases bm with
    | none => exact hg
    | some m => exact hg
  | areaScores lat lon wk => exact hg
  | loadLabels base i18n => exact applyLoadLabels_geoscore _ base i18n hg

theorem runWorker_geoscores :
    ∀ (reqs : List WorkerReq) (st : WorkerState), st.areaModel = none →
      allGeoscoresOne st.birds → allGeoscoresOne (runWorker st reqs).birds := by
  intro reqs
  induction reqs with
  | nil => intro st _ hg; exact hg
  | cons r rs ih =>
    intro st ha hg
    have hstep : runWorker st (r :: rs) = runWorker (workerStep st r) rs := by
      rw [runWorker, runWorker, List.foldl_cons]
    rw [hstep]
    exact ih (workerStep st r) (by rw [workerStep_areaModel]; exact ha)
      (workerStep_geoscores st r hg ha)

theorem initWorker_areaModel (bm : Option (List ℚ → ℕ → List (List ℝ)))
    (am : Option (ℝ → ℝ → ℤ → List ℝ)) (base i18n : List String) :
    (initWorker bm am base i18n).areaModel = am := rfl

/-- C9: if the geo model failed to load (areaModel is none), every
species geoscore stays at the neutral default 1.0 across any sequence of
worker requests, and every area-scores request leaves the state unchanged
and emits nothing (geo fusion is never invoked). -/
theorem geo_model_failure_neutral :
    (∀ (st : WorkerState) (lat lon : ℝ) (wk : ℤ), st.areaModel = none →
      handleAreaScores st lat lon wk = (st, [])) ∧
    (∀ (bm : Option (List ℚ → ℕ → List (List ℝ))) (base i18n : List String)
        (reqs : List WorkerReq),
      allGeoscoresOne (runWorker (initWorker bm none base i18n) reqs).birds) := by
  refine ⟨fun st lat lon wk h => handleAreaScores_none st lat lon wk h, ?_⟩
  intro bm base i18n reqs
  apply runWorker_geoscores reqs (initWorker bm none base i18n) rfl
  apply applyLoadLabels_geoscore
  intro b hb
  exact absurd hb (List.not_mem_nil b)

/-- Witness for geo_model_failure_neutral at a concrete failed-geo state. -/
theorem geo_model_failure_witness :
    (initWorker none none [] []).areaModel = none ∧
    handleAreaScores (initWorker none none [] []) 0 0 1 = (initWorker none none [] [], []) ∧
    allGeoscoresOne (runWorker (initWorker none none [] []) []).birds :=
  ⟨rfl, geo_model_failure_neutral.1 (initWorker none none [] []) 0 0 1 rfl,
    geo_model_failure_neutral.2 none [] [] []⟩

/- ==================== Theorems: temporal pooler ==================== -/

theorem foldl_max_replicate (x : ℝ) : ∀ k, (List.replicate k x).foldl max x = x := by
  intro k
  induction k with
  | zero => rfl
  | succ m ih => rw [List.replicate_succ, List.foldl_cons, max_self]; exact ih

theorem listMax_replicate (m : ℕ) (x : ℝ) : listMax (List.replicate (m + 1) x) = x := by
  rw [List.replicate_succ, listMax]
  exact foldl_max_replicate x m

theorem tpEps_pos : (0 : ℝ) < tpEps := by rw [tpEps]; norm_num

theorem tpEps_small : tpEps ≤ 1 - tpEps := by rw [tpEps]; norm_num

theorem clipConf_mem (c : ℝ) : tpEps ≤ clipConf c ∧ clipConf c ≤ 1 - tpEps := by
  constructor
  · exact le_min tpEps_small (le_max_left _ _)
  · exact min_le_left _ _

theorem sigmoid_confLogit (c : ℝ) :
    1 / (1 + Real.exp (-(confLogit c))) = clipConf c := by
  obtain ⟨hlo, hhi⟩ := clipConf_mem c
  have h0 : 0 < clipConf c := lt_of_lt_of_le tpEps_pos hlo
  have h1 : clipConf c < 1 := lt_of_le_of_lt hhi (by linarith [tpEps_pos])
  have hpos : 0 < clipConf c / (1 - clipConf c) := div_pos h0 (by linarith)
  have hne : clipConf c ≠ 0 := ne_of_gt h0
  rw [confLogit, Real.exp_neg, Real.exp_log hpos, inv_div]
  rw [show (1 : ℝ) + (1 - clipConf c) / clipConf c = 1 / clipConf c by
    field_simp]
  rw [one_div_one_div]

theorem lmePool_replicate (K : ℕ) (hK : 1 ≤ K) (c : ℝ) :
    lmePool (List.replicate K c) = clipConf c := by
  obtain ⟨m, rfl⟩ : ∃ m, K = m + 1 := ⟨K - 1, by omega⟩
  rw [lmePool, List.map_replicate, listMax_replicate, List.map_replicate, sub_self,
    Real.exp_zero, List.sum_replicate, List.length_replicate, nsmul_eq_mul, mul_one,
    div_self (by positivity : ((m + 1 : ℕ) : ℝ) ≠ 0), Real.log_one, add_zero]
  exact sigmoid_confLogit c

theorem clipConf_close (c : ℝ) (h0 : 0 ≤ c) (h1 : c ≤ 1) :
    |clipConf c - c| ≤ tpEps := by
  have heps : (0 : ℝ) < tpEps := tpEps_pos
  have heps2 : tpEps ≤ 1 - tpEps := tpEps_small
  rcases le_total c tpEps with hc | hc
  · have hmax : max tpEps c = tpEps := max_eq_left hc
    rw [clipConf, hmax, min_eq_right heps2, abs_le]
    constructor <;> linarith
  · rcases le_total c (1 - tpEps) with hc2 | hc2
    · rw [clipConf, max_eq_right hc, min_eq_right hc2, sub_self, abs_zero]
      linarith
    · rw [clipConf, max_eq_right hc, min_eq_left hc2, abs_le]
      constructor <;> linarith

theorem updated_idx (a : PoolGroup) (c : ℝ) (p : Prop) [Decidable p] :
    (if p then { a with samples := a.samples ++ [c] } else a).idx = a.idx := by
  split <;> rfl

theorem foldl_upsert_present (s : List SpeciesEntry) :
    ∀ acc : List PoolGroup,
      (∀ d ∈ s, ∃ e ∈ acc, e.idx = d.index) →
      List.Pairwise (fun a b : PoolGroup => a.idx ≠ b.idx) acc →
      s.foldl upsertDet acc
        = acc.map (fun e =>
            { e with samples := e.samples
                ++ ((s.filter (fun d => d.index == e.idx)).map
                    (fun d => d.confidence)) }) := by
  induction s with
  | nil =>
    intro acc _ _
    simp only [List.foldl_nil, List.filter_nil, List.map_nil, List.append_nil]
    exact (List.map_id acc).symm
  | cons d ds ih =>
    intro acc hpres hdist
    rw [List.foldl_cons]
    have hdP : acc.any (fun e => e.idx == d.index) = true := by
      rw [List.any_eq_true]
      obtain ⟨e, he, heq⟩ := hpres d (List.mem_cons_self d ds)
      exact ⟨e, he, by simp [heq]⟩
    rw [upsertDet, if_pos hdP]
    have hpres2 : ∀ d2 ∈ ds, ∃ e ∈ acc.map (fun e =>
        if e.idx = d.index then { e with samples := e.samples ++ [d.confidence] } else e),
        e.idx = d2.index := by
      intro d2 hd2
      obtain ⟨e, he, heq⟩ := hpres d2 (List.mem_cons_of_mem d hd2)
      exact ⟨_, List.mem_map_of_mem _ he, by rw [updated_idx]; exact heq⟩
    have hdist2 : List.Pairwise (fun a b : PoolGroup => a.idx ≠ b.idx)
        (acc.map (fun e =>
          if e.idx = d.index then { e with samples := e.samples ++ [d.confidence] } else e)) := by
      rw [List.pairwise_map]
      refine hdist.imp ?_
      intro a b hab
      rw [updated_idx, updated_idx]
      exact hab
    rw [ih _ hpres2 hdist2, List.map_map]
    apply List.map_congr_left
    intro e he
    simp only [Function.comp]
    by_cases hie : e.idx = d.index
    · rw [if_pos hie, List.filter_cons, if_pos (by simp [hie])]
      simp
    · rw [if_neg hie, List.filter_cons,
        if_neg (by simp only [beq_iff_eq]; exact fun hcon => hie hcon.symm)]

theorem foldl_upsert_fresh (s : List SpeciesEntry) :
    ∀ acc : List PoolGroup,
      (∀ d ∈ s, ∀ e ∈ acc, e.idx ≠ d.index) →
      List.Pairwise (fun a b : SpeciesEntry => a.index ≠ b.index) s →
      s.foldl upsertDet acc
        = acc ++ s.map (fun d =>
            { idx := d.index, samples := [d.confidence], ref := d }) := by
  induction s with
  | nil => intro acc _ _; simp
  | cons d ds ih =>
    intro acc hdisj hdist
    rw [List.foldl_cons]
    have hnot : ¬(acc.any (fun e => e.idx == d.index) = true) := by
      rw [List.any_eq_true]
      rintro ⟨e, he, heq⟩
      exact hdisj d (List.mem_cons_self d ds) e he (by simpa using heq)
    rw [upsertDet, if_neg hnot]
    rw [List.pairwise_cons] at hdist
    have hdisj2 : ∀ d2 ∈ ds,
        ∀ e ∈ acc ++ [({ idx := d.index, samples := [d.confidence], ref := d } : PoolGroup)],
        e.idx ≠ d2.index := by
      intro d2 hd2 e he
      rcases List.mem_append.mp he with hea | heb
      · exact hdisj d2 (List.mem_cons_of_mem d hd2) e hea
      · rw [List.mem_singleton.mp heb]
        exact hdist.1 d2 hd2
    rw [ih _ hdisj2 hdist.2]
    simp

theorem filter_index_singleton (s : List SpeciesEntry)
    (hdist : List.Pairwise (fun a b : SpeciesEntry => a.index ≠ b.index) s)
    (d : SpeciesEntry) (hd : d ∈ s) :
    s.filter (fun d2 => d2.index == d.index) = [d] := by
  induction s with
  | nil => cases hd
  | cons a as ih =>
    rw [List.pairwise_cons] at hdist
    rcases List.mem_cons.mp hd with rfl | hmem
    · rw [List.filter_cons, if_pos (by simp)]
      have hnil : as.filter (fun d2 => d2.index == d.index) = [] := by
        rw [List.filter_eq_nil_iff]
        intro x hx
        simp only [beq_iff_eq]
        exact fun hcon => (hdist.1 x hx) hcon.symm
      rw [hnil]
    · rw [List.filter_cons, if_neg (by simp only [beq_iff_eq]; exact hdist.1 d hmem)]
      exact ih hdist.2 hmem

theorem groupByIndex_replicate (s : List SpeciesEntry)
    (hdist : List.Pairwise (fun a b : SpeciesEntry => a.index ≠ b.index) s) :
    ∀ K, 1 ≤ K →
      groupByIndex (List.replicate K s).flatten
        = s.map (fun d =>
            { idx := d.index, samples := List.replicate K d.confidence, ref := d }) := by
  intro K
  induction K with
  | zero => omega
  | succ m ih =>
    intro _
    by_cases hm : m = 0
    · subst hm
      rw [show (List.replicate 1 s).flatten = s by simp, groupByIndex,
        foldl_upsert_fresh s [] (fun d _ e he => absurd he (List.not_mem_nil e)) hdist]
      simp
    · have hm1 : 1 ≤ m := by omega
      rw [List.replicate_succ' m s, List.flatten_append, groupByIndex, List.foldl_append,
        show (List.replicate m s).flatten.foldl upsertDet []
          = groupByIndex (List.replicate m s).flatten from rfl,
        ih hm1, show [s].flatten = s by simp]
      have hpres : ∀ d ∈ s,
          ∃ e ∈ s.map (fun d =>
            ({ idx := d.index, samples := List.replicate m d.confidence, ref := d } : PoolGroup)),
          e.idx = d.index :=
        fun d hd => ⟨_, List.mem_map_of_mem _ hd, rfl⟩
      have hdist2 : List.Pairwise (fun a b : PoolGroup => a.idx ≠ b.idx)
          (s.map (fun d =>
            { idx := d.index, samples := List.replicate m d.confidence, ref := d })) := by
        rw [List.pairwise_map]
        exact hdist
      rw [foldl_upsert_present s _ hpres hdist2, List.map_map]
      apply List.map_congr_left
      intro d hd
      simp only [Function.comp]
      rw [filter_index_singleton s hdist d hd]
      simp [List.replicate_succ']

/-- C5: the temporal pooler is invariant under identical inputs: with
exactly one retained set it returns that set unchanged (exact equality,
which also covers K = 1 copies), and pooling K >= 2 copies of a set of
per-class confidences in [0, 1] is a round trip: the pooled output is a
permutation of the input set with each confidence replaced by its 1e-8
clip, so every input class appears in the output with its confidence
returned unchanged up to 1e-8, well within the 1e-6 tolerance, every
output entry comes from an input class, all other entry fields are
preserved, and the output is sorted by descending confidence. -/
theorem temporal_pool_identity (s : List SpeciesEntry) (K : ℕ) (hK : 2 ≤ K)
    (hdist : List.Pairwise (fun a b : SpeciesEntry => a.index ≠ b.index) s)
    (hbounds : ∀ d ∈ s, 0 ≤ d.confidence ∧ d.confidence ≤ 1) :
    temporalPool [s] = s ∧
    (temporalPool (List.replicate K s)).Perm
      (s.map (fun d => { d with confidence := clipConf d.confidence })) ∧
    (∀ d ∈ s, ∃ e ∈ temporalPool (List.replicate K s),
      e.index = d.index ∧ e.scientificName = d.scientificName ∧
      e.commonName = d.commonName ∧ e.commonNameI18n = d.commonNameI18n ∧
      e.geoscore = d.geoscore ∧
      |e.confidence - d.confidence| ≤ 1 / 1000000) ∧
    (∀ e ∈ temporalPool (List.replicate K s), ∃ d ∈ s,
      e.index = d.index ∧ e.scientificName = d.scientificName ∧
      e.commonName = d.commonName ∧ e.commonNameI18n = d.commonNameI18n ∧
      e.geoscore = d.geoscore ∧
      |e.confidence - d.confidence| ≤ 1 / 1000000) ∧
    List.Pairwise confGE (temporalPool (List.replicate K s)) := by
  have hlen : (List.replicate K s).length = K := List.length_replicate K s
  have hne0 : ¬((List.replicate K s).length = 0) := by rw [hlen]; omega
  have hne1 : ¬((List.replicate K s).length = 1) := by rw [hlen]; omega
  have hpool : temporalPool (List.replicate K s)
      = List.insertionSort confGE
          (s.map (fun d => { d with confidence := clipConf d.confidence })) := by
    rw [temporalPool, if_neg hne0, if_neg hne1,
      groupByIndex_replicate s hdist K (by omega), List.map_map]
    congr 1
    apply List.map_congr_left
    intro d _
    simp only [Function.comp]
    rw [lmePool_replicate K (by omega) d.confidence]
  refine ⟨by simp [temporalPool], ?_, ?_, ?_, ?_⟩
  · rw [hpool]
    exact List.perm_insertionSort confGE _
  · intro d hd
    obtain ⟨hd0, hd1⟩ := hbounds d hd
    refine ⟨{ d with confidence := clipConf d.confidence }, ?_, rfl, rfl, rfl, rfl, rfl, ?_⟩
    · rw [hpool]
      exact (List.Perm.mem_iff (List.perm_insertionSort confGE _)).mpr
        (List.mem_map_of_mem _ hd)
    · show |clipConf d.confidence - d.confidence| ≤ 1 / 1000000
      calc |clipConf d.confidence - d.confidence| ≤ tpEps := clipConf_close d.confidence hd0 hd1
        _ ≤ 1 / 1000000 := by rw [tpEps]; norm_num
  · intro e he
    rw [hpool] at he
    have he2 : e ∈ s.map (fun d => { d with confidence := clipConf d.confidence }) :=
      (List.Perm.mem_iff (List.perm_insertionSort confGE _)).mp he
    obtain ⟨d, hd, heq⟩ := List.mem_map.mp he2
    obtain ⟨hd0, hd1⟩ := hbounds d hd
    rw [← heq]
    refine ⟨d, hd, rfl, rfl, rfl, rfl, rfl, ?_⟩
    show |clipConf d.confidence - d.confidence| ≤ 1 / 1000000
    calc |clipConf d.confidence - d.confidence| ≤ tpEps := clipConf_close d.confidence hd0 hd1
      _ ≤ 1 / 1000000 := by rw [tpEps]; norm_num
  · rw [hpool]
    exact List.sorted_insertionSort confGE _

/-- Witness for temporal_pool_identity: two copies of a single detection
with confidence 1/2. -/
theorem temporal_pool_identity_witness :
    (2 ≤ 2 ∧
      List.Pairwise (fun a b : SpeciesEntry => a.index ≠ b.index)
        [(⟨0, emptyStr, emptyStr, emptyStr, 1 / 2, 1⟩ : SpeciesEntry)] ∧
      (∀ d ∈ [(⟨0, emptyStr, emptyStr, emptyStr, 1 / 2, 1⟩ : SpeciesEntry)],
        0 ≤ d.confidence ∧ d.confidence ≤ 1)) ∧
    (temporalPool [[(⟨0, emptyStr, emptyStr, emptyStr, 1 / 2, 1⟩ : SpeciesEntry)]]
        = [(⟨0, emptyStr, emptyStr, emptyStr, 1 / 2, 1⟩ : SpeciesEntry)] ∧
      (temporalPool
          (List.replicate 2 [(⟨0, emptyStr, emptyStr, emptyStr, 1 / 2, 1⟩ : SpeciesEntry)])).Perm
        ([(⟨0, emptyStr, emptyStr, emptyStr, 1 / 2, 1⟩ : SpeciesEntry)].map
          (fun d => { d with confidence := clipConf d.confidence })) ∧
      (∀ d ∈ [(⟨0, emptyStr, emptyStr, emptyStr, 1 / 2, 1⟩ : SpeciesEntry)],
        ∃ e ∈ temporalPool
          (List.replicate 2 [(⟨0, emptyStr, emptyStr, emptyStr, 1 / 2, 1⟩ : SpeciesEntry)]),
        e.index = d.index ∧ e.scientificName = d.scientificName ∧
        e.commonName = d.commonName ∧ e.commonNameI18n = d.commonNameI18n ∧
        e.geoscore = d.geoscore ∧
        |e.confidence - d.confidence| ≤ 1 / 1000000) ∧
      (∀ e ∈ temporalPool
          (List.replicate 2 [(⟨0, emptyStr, emptyStr, emptyStr, 1 / 2, 1⟩ : SpeciesEntry)]),
        ∃ d ∈ [(⟨0, emptyStr, emptyStr, emptyStr, 1 / 2, 1⟩ : SpeciesEntry)],
        e.index = d.index ∧ e.scientificName = d.scientificName ∧
        e.commonName = d.commonName ∧ e.commonNameI18n = d.commonNameI18n ∧
        e.geoscore = d.geoscore ∧
        |e.confidence - d.confidence| ≤ 1 / 1000000) ∧
      List.Pairwise confGE (temporalPool
        (List.replicate 2 [(⟨0, emptyStr, emptyStr, emptyStr, 1 / 2, 1⟩ : SpeciesEntry)]))) :=
  ⟨⟨by norm_num, List.pairwise_singleton _ _, by
      intro d hd
      rw [List.mem_singleton.mp hd]
      norm_num⟩,
    temporal_pool_identity [(⟨0, emptyStr, emptyStr, emptyStr, 1 / 2, 1⟩ : SpeciesEntry)]
      2 (by norm_num) (List.pairwise_singleton _ _)
      (by
        intro d hd
        rw [List.mem_singleton.mp hd]
        norm_num)⟩


/- ==================== Theorems: pooled responses after stop ==================== -/

/-- C7 counterexample: in the state reached by stopListening (not
Capturing), an arriving pooled response is not discarded: it is pushed
into the retained sets, latestDetections is updated, and a re-render is
triggered.  The only isListening check in the handler guards the latency
status line. -/
theorem pooled_after_stop_updates_state :
    (stopListening ⟨true, [], [], 5, none⟩).isListening = false ∧
    (stopListening ⟨true, [], [], 5, none⟩).recentInferenceSets = [] ∧
    (stopListening ⟨true, [], [], 5, none⟩).latestDetections = [] ∧
    (handlePooledMsg (stopListening ⟨true, [], [], 5, none⟩)
        [(⟨0, emptyStr, emptyStr, emptyStr, 1 / 2, 1⟩ : SpeciesEntry)] 6).1.recentInferenceSets
      = [[(⟨0, emptyStr, emptyStr, emptyStr, 1 / 2, 1⟩ : SpeciesEntry)]] ∧
    (handlePooledMsg (stopListening ⟨true, [], [], 5, none⟩)
        [(⟨0, emptyStr, emptyStr, emptyStr, 1 / 2, 1⟩ : SpeciesEntry)] 6).1.latestDetections
      = [(⟨0, emptyStr, emptyStr, emptyStr, 1 / 2, 1⟩ : SpeciesEntry)] ∧
    (handlePooledMsg (stopListening ⟨true, [], [], 5, none⟩)
        [(⟨0, emptyStr, emptyStr, emptyStr, 1 / 2, 1⟩ : SpeciesEntry)] 6).2 = true := by
  have hcond : ¬((stopListening ⟨true, [], [], 5, none⟩).isListening = true
      ∧ (stopListening ⟨true, [], [], 5, none⟩).lastInferenceStart ≠ 0) := by
    rw [stopListening]
    simp
  refine ⟨rfl, rfl, rfl, ?_, ?_, ?_⟩ <;>
    simp only [handlePooledMsg, if_neg hcond] <;>
    simp [stopListening, temporalPool, TEMPORAL_POOL_WINDOW]

/-- C7 amended: when the scheduler is not Capturing, an inference (pooled)
response arriving from the worker is still fully processed by the core:
it is pushed into the bounded temporal pool, the temporally pooled result
is recomputed and re-rendered, and only the inference-latency status
update is skipped. -/
theorem pooled_after_stop_behavior (st : CoreState) (pooled : List SpeciesEntry)
    (now : ℝ) (h : st.isListening = false) :
    (handlePooledMsg st pooled now).2 = true ∧
    (handlePooledMsg st pooled now).1.recentInferenceSets
      = (if TEMPORAL_POOL_WINDOW < (st.recentInferenceSets ++ [pooled]).length
         then (st.recentInferenceSets ++ [pooled]).drop 1
         else st.recentInferenceSets ++ [pooled]) ∧
    (handlePooledMsg st pooled now).1.latestDetections
      = temporalPool (handlePooledMsg st pooled now).1.recentInferenceSets ∧
    (handlePooledMsg st pooled now).1.lastInferenceMs = st.lastInferenceMs ∧
    (handlePooledMsg st pooled now).1.isListening = false := by
  have hcond : ¬(st.isListening = true ∧ st.lastInferenceStart ≠ 0) := by
    rw [h]
    simp
  simp only [handlePooledMsg, if_neg hcond]
  simp [h]

/-- Witness for pooled_after_stop_behavior at a concrete stopped state. -/
theorem pooled_after_stop_behavior_witness :
    ((⟨false, [], [], 0, none⟩ : CoreState).isListening = false) ∧
    ((handlePooledMsg ⟨false, [], [], 0, none⟩
        [(⟨0, emptyStr, emptyStr, emptyStr, 1 / 2, 1⟩ : SpeciesEntry)] 0).2 = true ∧
    (handlePooledMsg ⟨false, [], [], 0, none⟩
        [(⟨0, emptyStr, emptyStr, emptyStr, 1 / 2, 1⟩ : SpeciesEntry)] 0).1.recentInferenceSets
      = (if TEMPORAL_POOL_WINDOW
            < ((⟨false, [], [], 0, none⟩ : CoreState).recentInferenceSets
                ++ [[(⟨0, emptyStr, emptyStr, emptyStr, 1 / 2, 1⟩ : SpeciesEntry)]]).length
         then ((⟨false, [], [], 0, none⟩ : CoreState).recentInferenceSets
                ++ [[(⟨0, emptyStr, emptyStr, emptyStr, 1 / 2, 1⟩ : SpeciesEntry)]]).drop 1
         else (⟨false, [], [], 0, none⟩ : CoreState).recentInferenceSets
                ++ [[(⟨0, emptyStr, emptyStr, emptyStr, 1 / 2, 1⟩ : SpeciesEntry)]]) ∧
    (handlePooledMsg ⟨false, [], [], 0, none⟩
        [(⟨0, emptyStr, emptyStr, emptyStr, 1 / 2, 1⟩ : SpeciesEntry)] 0).1.latestDetections
      = temporalPool (handlePooledMsg ⟨false, [], [], 0, none⟩
          [(⟨0, emptyStr, emptyStr, emptyStr, 1 / 2, 1⟩ : SpeciesEntry)] 0).1.recentInferenceSets ∧
    (handlePooledMsg ⟨false, [], [], 0, none⟩
        [(⟨0, emptyStr, emptyStr, emptyStr, 1 / 2, 1⟩ : SpeciesEntry)] 0).1.lastInferenceMs
      = (⟨false, [], [], 0, none⟩ : CoreState).lastInferenceMs ∧
    (handlePooledMsg ⟨false, [], [], 0, none⟩
        [(⟨0, emptyStr, emptyStr, emptyStr, 1 / 2, 1⟩ : SpeciesEntry)] 0).1.isListening = false) :=
  ⟨rfl, pooled_after_stop_behavior ⟨false, [], [], 0, none⟩
    [(⟨0, emptyStr, emptyStr, emptyStr, 1 / 2, 1⟩ : SpeciesEntry)] 0 rfl⟩
